import Mathlib

/-!
# Verification of the rdx-core dyadic exchange engine

Shallow embedding of `crates/rdx-core` (files `math.rs`, `preferences.rs`,
`pareto_oracle.rs`, `trade.rs`, `model.rs`, `sim.rs`).  `f64` values are
modelled by exact real numbers `ℝ`, `Vec<f64>` by `List ℝ`, Rust panics
(`assert!`) by `Except String`, and the seeded pseudorandom generator
(`StdRng`, an external library) by an abstract generator interface threaded
explicitly through initialization and the simulation loop.
-/

namespace Rdx

/-- `f64::clamp(lo, hi)` (math: Rust clamp semantics on real numbers). -/
noncomputable def rclamp (x lo hi : ℝ) : ℝ :=
  if x < lo then lo else if hi < x then hi else x

/-- `math.rs`: `clamp01`. -/
noncomputable def clamp01 (x : ℝ) : ℝ :=
  if x < 0 then 0 else if x > 1 then 1 else x

/-- `math.rs`: `normalize` — divide every entry by the sum when the sum is positive. -/
noncomputable def normalize (v : List ℝ) : List ℝ :=
  let s := v.sum
  if 0 < s then v.map (fun x => x / s) else v

/-- `preferences.rs`: `cd_utility` — `exp (Σ beta_k * ln (max x_k min_qty))`. -/
noncomputable def cd_utility (beta x : List ℝ) (min_qty : ℝ) : ℝ :=
  Real.exp ((List.zipWith (fun b xi => b * Real.log (max xi min_qty)) beta x).sum)

/-- `preferences.rs`: body of `beta_from_alpha_to_base` (after its
`assert!(base < n)` has passed; the assertion itself is modelled in
`beta_from_alpha_to_base_checked`).  Sets `beta[base] = 1`, every other entry to
`ratio = a/(1-a)` with `a` the clamped pairwise parameter, then normalizes. -/
noncomputable def beta_from_alpha_to_base (alpha_to_base : List ℝ) (base : ℕ)
    (min_alpha : ℝ) : List ℝ :=
  let n := alpha_to_base.length
  let beta := (List.range n).map (fun k =>
    if k = base then (1 : ℝ)
    else
      let a := rclamp (alpha_to_base.getD k 0) min_alpha (1 - min_alpha)
      a / (1 - a))
  normalize beta

/-- `preferences.rs`: `beta_from_alpha_to_base` including its
`assert!(base < n)` panic, modelled as an `Except` error. -/
noncomputable def beta_from_alpha_to_base_checked (alpha_to_base : List ℝ)
    (base : ℕ) (min_alpha : ℝ) : Except String (List ℝ) :=
  if base < alpha_to_base.length then
    .ok (beta_from_alpha_to_base alpha_to_base base min_alpha)
  else .error "assertion failed: base < n"

/-- `preferences.rs`: `alpha_from_beta` — `beta_a / (beta_a + beta_b)` with a
floored denominator, clamped into `[min_alpha, 1 - min_alpha]`. -/
noncomputable def alpha_from_beta (beta : List ℝ) (a b : ℕ) (min_alpha : ℝ) : ℝ :=
  let ba := max (beta.getD a 0) 0
  let bb := max (beta.getD b 0) 0
  let denom := max (ba + bb) (1 / 10 ^ 18)
  rclamp (ba / denom) min_alpha (1 - min_alpha)

/-! ## Pareto oracle (`pareto_oracle.rs`) -/

/-- Output of the dyadic exchange oracle. -/
structure DyadExchange where
  q_ab : ℝ
  ai_post : ℝ
  bi_post : ℝ
  aj_post : ℝ
  bj_post : ℝ

/-- `CobbDouglasWalrasOracle::excess_demand_a`: with `pB = 1`, wealths
`w = p*a + b`, demands `alpha*w/p`; excess demand for good A. -/
noncomputable def excess_demand_a (alpha_i ai bi alpha_j aj bj p : ℝ) : ℝ :=
  let wi := p * ai + bi
  let wj := p * aj + bj
  let di_a := alpha_i * wi / p
  let dj_a := alpha_j * wj / p
  (di_a + dj_a) - (ai + aj)

/-- The bisection loop of `solve_two_good_exchange`: `iters` steps narrowing
`(p_lo, p_hi)` using the geometric midpoint; `z > 0` moves `p_lo` up, else
`p_hi` down. -/
noncomputable def bisect_iter (alpha_i ai bi alpha_j aj bj : ℝ) :
    ℕ → ℝ × ℝ → ℝ × ℝ
  | 0, pr => pr
  | k + 1, (p_lo, p_hi) =>
      let p_mid := Real.sqrt (p_lo * p_hi)
      let z := excess_demand_a alpha_i ai bi alpha_j aj bj p_mid
      if z > 0 then bisect_iter alpha_i ai bi alpha_j aj bj k (p_mid, p_hi)
      else bisect_iter alpha_i ai bi alpha_j aj bj k (p_lo, p_mid)

/-- The final price of `solve_two_good_exchange`: bisection from the bracket
`[1e-6, 1e6]` followed by a last geometric midpoint. -/
noncomputable def solve_price (alpha_i ai bi alpha_j aj bj : ℝ) (iters : ℕ) : ℝ :=
  let pr := bisect_iter alpha_i ai bi alpha_j aj bj iters (1 / 10 ^ 6, 10 ^ 6)
  Real.sqrt (pr.1 * pr.2)

/-- `CobbDouglasWalrasOracle::solve_two_good_exchange`: floor the four input
quantities at `min_qty`, clamp the alphas into `[0,1]`, find the price by
bisection, then the Marshallian allocations, each floored at `min_qty`. -/
noncomputable def solve_two_good_exchange (alpha_i ai bi alpha_j aj bj
    min_qty : ℝ) (iters : ℕ) : DyadExchange :=
  let ai' := max ai min_qty
  let bi' := max bi min_qty
  let aj' := max aj min_qty
  let bj' := max bj min_qty
  let a_i := clamp01 alpha_i
  let a_j := clamp01 alpha_j
  let p := solve_price a_i ai' bi' a_j aj' bj' iters
  let wi := p * ai' + bi'
  let wj := p * aj' + bj'
  { q_ab := p
    ai_post := max (a_i * wi / p) min_qty
    bi_post := max ((1 - a_i) * wi) min_qty
    aj_post := max (a_j * wj / p) min_qty
    bj_post := max ((1 - a_j) * wj) min_qty }

/-! ## Data model (`model.rs`, `reaction.rs`) -/

/-- `reaction.rs`: `ReactionRuleSpec` (inert: parsed but never invoked by the
simulation loop; `BTreeMap<usize, f64>` modelled as an ordered association
list). -/
structure ReactionRuleSpec where
  id : String
  size_class : String
  name : String
  lead : ℕ
  inputs : List (ℕ × ℝ)
  outputs : List (ℕ × ℝ)

/-- `model.rs`: `Agent`. The inert `reaction_rules` field is omitted: it is
never read or written by the engine in scope. -/
structure Agent where
  e : List ℝ
  beta : List ℝ
  alpha_to_base : List ℝ

instance : Inhabited Agent := ⟨⟨[], [], []⟩⟩

/-- `model.rs`: `TradeEvent`. -/
structure TradeEvent where
  round : ℕ
  i : ℕ
  j : ℕ
  good_a : ℕ
  good_b : ℕ
  q_ab : ℝ
  delta_a_i : ℝ
  delta_b_i : ℝ
  delta_u_i : ℝ
  delta_u_j : ℝ

instance : Inhabited TradeEvent := ⟨⟨0, 0, 0, 0, 0, 0, 0, 0, 0, 0⟩⟩

/-- `model.rs`: `PairingMode`. -/
inductive PairingMode where
  | againstBase
  | allPairsPruned

/-- `model.rs`: `SimConfig`. -/
structure SimConfig where
  seed : ℕ
  num_agents : ℕ
  rounds : ℕ
  p2p_encounters_per_round : ℕ
  base_good : ℕ
  initial_endowment_scale : ℝ
  alpha_low : ℝ
  alpha_high : ℝ
  trade_step_cap_frac : ℝ
  min_qty : ℝ
  oracle_bisect_iters : ℕ
  pairing_mode : PairingMode
  candidate_goods_k : ℕ
  base_goods : List String
  base_goods_quantity : ℕ
  reaction_rules : List ReactionRuleSpec

/-! ## Trade candidate search (`trade.rs`) -/

/-- `trade.rs`: `TradeCandidate`. -/
structure TradeCandidate where
  good_a : ℕ
  good_b : ℕ
  q_ab : ℝ
  delta_a_i : ℝ
  delta_b_i : ℝ
  delta_u_i : ℝ
  delta_u_j : ℝ

/-- The `&dyn ParetoOracle` trait object: any function with the signature of
`solve_two_good_exchange`. -/
def OracleFn : Type :=
  ℝ → ℝ → ℝ → ℝ → ℝ → ℝ → ℝ → ℕ → DyadExchange

/-- The built-in oracle passed by `sim.rs` via `default_oracle()`. -/
noncomputable def walras_oracle : OracleFn := solve_two_good_exchange

/-- `trade.rs`: `mrs_to_base` — `(beta_k/beta_base) * (x_base/x_k)` with floors. -/
noncomputable def mrs_to_base (beta x : List ℝ) (k base : ℕ) (min_qty : ℝ) : ℝ :=
  let bk := max (beta.getD k 0) 0
  let bb := max (beta.getD base 0) (1 / 10 ^ 18)
  let xb := max (x.getD base 0) min_qty
  let xk := max (x.getD k 0) min_qty
  (bk / bb) * (xb / xk)

/-- `trade.rs`: the per-good disagreement score used by `candidate_goods_pruned`:
absolute difference of the agents' log-MRS against the base good. -/
noncomputable def mrs_disagreement (i j : Agent) (g base : ℕ) (min_qty : ℝ) : ℝ :=
  |Real.log (max (mrs_to_base i.beta i.e g base min_qty) (1 / 10 ^ 18)) -
    Real.log (max (mrs_to_base j.beta j.e g base min_qty) (1 / 10 ^ 18))|

/-- `trade.rs`: `candidate_goods_pruned` — score every good `g ≠ base`, sort by
score descending (Rust `sort_by` is a stable merge sort), truncate to
`min k len`, and return the good indices. -/
noncomputable def candidate_goods_pruned (i j : Agent) (base k : ℕ)
    (min_qty : ℝ) : List ℕ :=
  let n := i.e.length
  let scored := ((List.range n).filter (fun g => g ≠ base)).map
    (fun g => (g, mrs_disagreement i j g base min_qty))
  let sorted := scored.mergeSort (fun p q => decide (q.2 ≤ p.2))
  ((sorted.take (min k sorted.length)).map Prod.fst)

/-- `trade.rs` (`evaluate_pairwise_trade`): the dyadic alpha for one agent —
the stored `alpha_to_base[good_a]` (clamped) when `good_b` is the base good and
the stored vector has the right length, else derived from `beta`. -/
noncomputable def dyadic_alpha (ag : Agent) (good_a good_b base_good : ℕ) : ℝ :=
  let min_alpha : ℝ := 1 / 10 ^ 6
  if good_b = base_good ∧ ag.alpha_to_base.length = ag.e.length then
    rclamp (ag.alpha_to_base.getD good_a 0) min_alpha (1 - min_alpha)
  else alpha_from_beta ag.beta good_a good_b min_alpha

/-- `trade.rs` (`evaluate_pairwise_trade`): the oracle call on the dyad's
quantities of the two goods. -/
noncomputable def trade_dyad (i j : Agent) (good_a good_b base_good : ℕ)
    (min_qty : ℝ) (oracle_iters : ℕ) (oracle : OracleFn) : DyadExchange :=
  oracle (dyadic_alpha i good_a good_b base_good)
    (i.e.getD good_a 0) (i.e.getD good_b 0)
    (dyadic_alpha j good_a good_b base_good)
    (j.e.getD good_a 0) (j.e.getD good_b 0) min_qty oracle_iters

/-- `trade.rs`: `evaluate_pairwise_trade`. Guards, oracle call, counterfactual
full bundles changing only goods A and B, full-vector utility deltas, and the
strict-improvement filter. -/
noncomputable def evaluate_pairwise_trade (i j : Agent) (good_a good_b
    base_good : ℕ) (min_qty : ℝ) (oracle_iters : ℕ) (oracle : OracleFn) :
    Option TradeCandidate :=
  if good_a = good_b then none
  else if i.e.length ≤ good_a ∨ i.e.length ≤ good_b then none
  else if i.e.length ≠ j.e.length then none
  else
    let ai := i.e.getD good_a 0
    let bi := i.e.getD good_b 0
    let ex := trade_dyad i j good_a good_b base_good min_qty oracle_iters oracle
    let xi_post := (i.e.set good_a ex.ai_post).set good_b ex.bi_post
    let xj_post := (j.e.set good_a ex.aj_post).set good_b ex.bj_post
    let ui0 := cd_utility i.beta i.e min_qty
    let uj0 := cd_utility j.beta j.e min_qty
    let ui1 := cd_utility i.beta xi_post min_qty
    let uj1 := cd_utility j.beta xj_post min_qty
    let delta_u_i := ui1 - ui0
    let delta_u_j := uj1 - uj0
    if delta_u_i > 0 ∧ delta_u_j > 0 then
      some { good_a := good_a, good_b := good_b, q_ab := ex.q_ab,
             delta_a_i := ex.ai_post - ai, delta_b_i := ex.bi_post - bi,
             delta_u_i := delta_u_i, delta_u_j := delta_u_j }
    else none

/-- `trade.rs` (`best_trade_*`): keep the candidate with the strictly larger
conservative score `min delta_u_i delta_u_j`. -/
noncomputable def better (best : Option TradeCandidate) (cand : TradeCandidate) :
    Option TradeCandidate :=
  match best with
  | none => some cand
  | some bc =>
      if min cand.delta_u_i cand.delta_u_j > min bc.delta_u_i bc.delta_u_j then
        some cand
      else some bc

/-- `trade.rs`: `best_trade_against_base`. -/
noncomputable def best_trade_against_base (i j : Agent) (base_good : ℕ)
    (min_qty : ℝ) (oracle_iters : ℕ) (oracle : OracleFn) :
    Option TradeCandidate :=
  if i.e.length ≠ j.e.length then none
  else
    (List.range i.e.length).foldl (fun best a =>
      if a = base_good then best
      else
        match evaluate_pairwise_trade i j a base_good base_good min_qty
            oracle_iters oracle with
        | none => best
        | some cand => better best cand) none

/-- `trade.rs`: `best_trade_over_all_pairs_pruned` — all ordered pairs of
distinct goods within the pruned candidate set plus the base good. -/
noncomputable def best_trade_over_all_pairs_pruned (i j : Agent) (base_good
    candidate_goods_k : ℕ) (min_qty : ℝ) (oracle_iters : ℕ)
    (oracle : OracleFn) : Option TradeCandidate :=
  if i.e.length ≠ j.e.length then none
  else
    let cand_goods := candidate_goods_pruned i j base_good candidate_goods_k
      min_qty ++ [base_good]
    cand_goods.foldl (fun best a =>
      cand_goods.foldl (fun best b =>
        if a = b then best
        else
          match evaluate_pairwise_trade i j a b base_good min_qty oracle_iters
              oracle with
          | none => best
          | some cand => better best cand) best) none

/-- `trade.rs`: `apply_trade` — sequential in-place updates of the four
affected entries, each floored at `min_qty`; agent `j` receives the opposite
deltas. -/
noncomputable def apply_trade (i j : Agent) (cand : TradeCandidate)
    (min_qty : ℝ) : Agent × Agent :=
  let a := cand.good_a
  let b := cand.good_b
  let ei1 := i.e.set a (max (i.e.getD a 0 + cand.delta_a_i) min_qty)
  let ei2 := ei1.set b (max (ei1.getD b 0 + cand.delta_b_i) min_qty)
  let ej1 := j.e.set a (max (j.e.getD a 0 - cand.delta_a_i) min_qty)
  let ej2 := ej1.set b (max (ej1.getD b 0 - cand.delta_b_i) min_qty)
  ({ i with e := ei2 }, { j with e := ej2 })

/-! ## Simulation loop (`sim.rs`)

`StdRng` comes from the external `rand` crate; it is modelled as an abstract
deterministic generator: a state type with a seeding function and the two
`gen_range` forms the engine uses.  Every draw is a pure function of the
generator state, exactly as `StdRng` is. -/

/-- Abstract deterministic pseudorandom generator over a state type `σ`. -/
structure Rng (σ : Type) where
  /-- `StdRng::seed_from_u64`. -/
  seedFrom : ℕ → σ
  /-- `rng.gen_range(0..n)` for `usize`. -/
  genRangeNat : ℕ → σ → ℕ × σ
  /-- `rng.gen_range(lo..hi)` for `f64`. -/
  genRangeReal : ℝ → ℝ → σ → ℝ × σ

/-- `sim.rs`: `SimState`. -/
structure SimState where
  agents : List Agent
  events : List TradeEvent

/-- One agent's initialization draws in `init_agents`: endowments scaled from
`[0.5, 2.0)` draws, `alpha_to_base` drawn in `[alpha_low, alpha_high)` for
every non-base good (base entry fixed at the `0.5` convention), and `beta`
aggregated (whose `assert!(base < n)` may abort). -/
noncomputable def init_one_agent {σ : Type} (R : Rng σ) (cfg : SimConfig)
    (n : ℕ) (s : σ) : Except String (Agent × σ) :=
  let es := (List.range n).foldl (fun (acc : List ℝ × σ) _ =>
    (acc.1 ++ [(R.genRangeReal (1 / 2) 2 acc.2).1 * cfg.initial_endowment_scale],
      (R.genRangeReal (1 / 2) 2 acc.2).2)) ([], s)
  let als := (List.range n).foldl (fun (acc : List ℝ × σ) k =>
    if k = cfg.base_good then (acc.1 ++ [(1 / 2 : ℝ)], acc.2)
    else
      (acc.1 ++ [(R.genRangeReal cfg.alpha_low cfg.alpha_high acc.2).1],
        (R.genRangeReal cfg.alpha_low cfg.alpha_high acc.2).2)) ([], es.2)
  match beta_from_alpha_to_base_checked als.1 cfg.base_good (1 / 10 ^ 6) with
  | .error msg => .error msg
  | .ok beta => .ok ({ e := es.1, beta := beta, alpha_to_base := als.1 }, als.2)

/-- The agent-creation loop of `init_agents`. -/
noncomputable def init_agents_loop {σ : Type} (R : Rng σ) (cfg : SimConfig)
    (n : ℕ) : ℕ → List Agent → σ → Except String (List Agent)
  | 0, acc, _ => .ok acc
  | m + 1, acc, s =>
      match init_one_agent R cfg n s with
      | .error msg => .error msg
      | .ok (ag, s') => init_agents_loop R cfg n m (acc ++ [ag]) s'

/-- `sim.rs`: `init_agents` — the two configuration asserts (in source order:
goods-count equality, then goods count ≥ 2), then the seeded agent draws. -/
noncomputable def init_agents {σ : Type} (R : Rng σ) (cfg : SimConfig) :
    Except String SimState :=
  let n := cfg.base_goods.length
  if cfg.base_goods_quantity ≠ n then
    .error "[Safe Panic] Goods Quantity mismatch in configuration"
  else if ¬ 2 ≤ n then
    .error "[Safe Panic] Goods quantity is less than 2"
  else
    match init_agents_loop R cfg n cfg.num_agents [] (R.seedFrom cfg.seed) with
    | .error msg => .error msg
    | .ok agents => .ok { agents := agents, events := [] }

/-- The `while j == i` resampling loop in `run`, with explicit fuel: draw `j`,
return it when it differs from `i`, otherwise redraw.  `none` means the loop
has not exited within `fuel` draws. -/
noncomputable def draw_distinct {σ : Type} (R : Rng σ) (n i : ℕ) :
    ℕ → σ → Option (ℕ × σ)
  | 0, _ => none
  | fuel + 1, s =>
      if (R.genRangeNat n s).1 = i then
        draw_distinct R n i fuel (R.genRangeNat n s).2
      else some ((R.genRangeNat n s).1, (R.genRangeNat n s).2)

/-- The generator state after `t` draws of `gen_range(0..n)`. -/
noncomputable def rng_iter {σ : Type} (R : Rng σ) (n : ℕ) (s : σ) : ℕ → σ
  | 0 => s
  | t + 1 => (R.genRangeNat n (rng_iter R n s t)).2

/-- The step-cap adjustment in `run`: when the clamped cap is `< 1`, both
quantity deltas are scaled by it. -/
noncomputable def cap_candidate (cap : ℝ) (cand : TradeCandidate) :
    TradeCandidate :=
  if cap < 1 then
    { cand with delta_a_i := cand.delta_a_i * cap,
                delta_b_i := cand.delta_b_i * cap }
  else cand

/-- One encounter of `run` for already-drawn distinct indices `i ≠ j` in round
`t`: candidate search per the configured pairing mode with the built-in
oracle, then step-cap, `apply_trade`, and the event record (utility deltas
recomputed from the actually applied trade). -/
noncomputable def encounter (cfg : SimConfig) (agents : List Agent)
    (i j t : ℕ) : List Agent × Option TradeEvent :=
  let ai := agents.getD i default
  let aj := agents.getD j default
  let ui0 := cd_utility ai.beta ai.e cfg.min_qty
  let uj0 := cd_utility aj.beta aj.e cfg.min_qty
  let cand0 :=
    match cfg.pairing_mode with
    | .againstBase =>
        best_trade_against_base ai aj cfg.base_good cfg.min_qty
          cfg.oracle_bisect_iters walras_oracle
    | .allPairsPruned =>
        best_trade_over_all_pairs_pruned ai aj cfg.base_good
          cfg.candidate_goods_k cfg.min_qty cfg.oracle_bisect_iters
          walras_oracle
  match cand0 with
  | none => (agents, none)
  | some cand1 =>
      let cand := cap_candidate (rclamp cfg.trade_step_cap_frac 0 1) cand1
      let ai' := (apply_trade ai aj cand cfg.min_qty).1
      let aj' := (apply_trade ai aj cand cfg.min_qty).2
      let agents' := (agents.set i ai').set j aj'
      let ui1 := cd_utility ai'.beta ai'.e cfg.min_qty
      let uj1 := cd_utility aj'.beta aj'.e cfg.min_qty
      (agents',
        some { round := t, i := i, j := j, good_a := cand.good_a,
               good_b := cand.good_b, q_ab := cand.q_ab,
               delta_a_i := cand.delta_a_i, delta_b_i := cand.delta_b_i,
               delta_u_i := ui1 - ui0, delta_u_j := uj1 - uj0 })

/-- The inner encounter loop of `run` (one round, `m` encounters left):
draw `i`, resample a distinct `j`, run the encounter, log the event. -/
noncomputable def encounters_loop {σ : Type} (R : Rng σ) (cfg : SimConfig)
    (fuel t : ℕ) : ℕ → List Agent × List TradeEvent × σ →
    Option (List Agent × List TradeEvent × σ)
  | 0, st => some st
  | m + 1, (agents, events, s) =>
      let i := (R.genRangeNat agents.length s).1
      let s1 := (R.genRangeNat agents.length s).2
      match draw_distinct R agents.length i fuel s1 with
      | none => none
      | some (j, s2) =>
          let step := encounter cfg agents i j t
          let events' := match step.2 with
            | none => events
            | some ev => events ++ [ev]
          encounters_loop R cfg fuel t m (step.1, events', s2)

/-- The outer round loop of `run`: `r` rounds left, `t` the current round
index. -/
noncomputable def rounds_loop {σ : Type} (R : Rng σ) (cfg : SimConfig)
    (fuel : ℕ) : ℕ → ℕ → List Agent × List TradeEvent × σ →
    Option (List Agent × List TradeEvent × σ)
  | 0, _, st => some st
  | r + 1, t, st =>
      match encounters_loop R cfg fuel t cfg.p2p_encounters_per_round st with
      | none => none
      | some st' => rounds_loop R cfg fuel r (t + 1) st'

/-- `sim.rs`: `run` — the in-loop generator is seeded from
`seed ^ 0xA5A5_A5A5_A5A5_A5A5`, independently of the initialization
generator.  `none` models an encounter whose resampling loop did not exit
within `fuel` draws. -/
noncomputable def run {σ : Type} (R : Rng σ) (fuel : ℕ) (cfg : SimConfig)
    (state : SimState) : Option SimState :=
  (rounds_loop R cfg fuel cfg.rounds 0
      (state.agents, state.events, R.seedFrom (Nat.xor cfg.seed 0xA5A5A5A5A5A5A5A5))).map
    (fun st => { agents := st.1, events := st.2.1 })

/-- A full simulation: `init_agents` then `run`, as driven by the CLI. -/
noncomputable def full_sim {σ : Type} (R : Rng σ) (fuel : ℕ)
    (cfg : SimConfig) : Except String (Option SimState) :=
  (init_agents R cfg).map (run R fuel cfg)

/-- The event log of a full simulation (empty when initialization aborted or
the run did not finish). -/
noncomputable def sim_events {σ : Type} (R : Rng σ) (fuel : ℕ)
    (cfg : SimConfig) : List TradeEvent :=
  match full_sim R fuel cfg with
  | .ok (some s) => s.events
  | _ => []

/-! ## Theorems -/

/-- At a positive price, excess demand for A splits into a constant part and a
part inversely proportional to the price. -/
lemma excess_demand_a_eq (alpha_i ai bi alpha_j aj bj p : ℝ) (hp : 0 < p) :
    excess_demand_a alpha_i ai bi alpha_j aj bj p =
      (alpha_i * ai + alpha_j * aj - (ai + aj)) +
        (alpha_i * bi + alpha_j * bj) / p := by
  unfold excess_demand_a
  field_simp
  ring

end Rdx

namespace Rdx

/-- C7: within the oracle's input domain (non-negative preference exponents
and non-negative holdings of the numeraire good B), `excess_demand_a` is
monotonically decreasing in the trial price: for `0 < p₁ < p₂` the excess
demand at `p₂` does not exceed the excess demand at `p₁`. -/
theorem C7_excess_demand_antitone (alpha_i ai bi alpha_j aj bj p₁ p₂ : ℝ)
    (hai : 0 ≤ alpha_i) (haj : 0 ≤ alpha_j) (hbi : 0 ≤ bi) (hbj : 0 ≤ bj)
    (hp₁ : 0 < p₁) (h₁₂ : p₁ < p₂) :
    excess_demand_a alpha_i ai bi alpha_j aj bj p₂ ≤
      excess_demand_a alpha_i ai bi alpha_j aj bj p₁ := by
  have hp₂ : 0 < p₂ := hp₁.trans h₁₂
  rw [excess_demand_a_eq _ _ _ _ _ _ _ hp₁, excess_demand_a_eq _ _ _ _ _ _ _ hp₂]
  have hnum : 0 ≤ alpha_i * bi + alpha_j * bj := by positivity
  have : (alpha_i * bi + alpha_j * bj) / p₂ ≤
      (alpha_i * bi + alpha_j * bj) / p₁ := by
    gcongr
  linarith

/-- C7 witness at concrete inputs. -/
theorem C7_excess_demand_antitone_witness :
    excess_demand_a 1 1 1 1 1 1 2 ≤ excess_demand_a 1 1 1 1 1 1 1 :=
  C7_excess_demand_antitone 1 1 1 1 1 1 1 2 zero_le_one zero_le_one
    zero_le_one zero_le_one zero_lt_one one_lt_two

/-- The non-base goods of `0..n` number `n - 1` when `base < n`. -/
lemma length_filter_ne_base (n base : ℕ) (h : base < n) :
    ((List.range n).filter (fun g => g ≠ base)).length = n - 1 := by
  induction n with
  | zero => exact absurd h (Nat.not_lt_zero base)
  | succ n ih =>
      rw [List.range_succ, List.filter_append, List.length_append]
      rcases Nat.lt_succ_iff_lt_or_eq.mp h with hlt | heq
      · have h1 : List.filter (fun g => decide (g ≠ base)) [n] = [n] := by
          simp
          omega
        rw [ih hlt, h1]
        simp
        omega
      · have h0 : List.filter (fun g => decide (g ≠ base)) [n] = [] := by
          simp [heq]
        have hall : List.filter (fun g => decide (g ≠ base)) (List.range n) =
            List.range n := by
          apply List.filter_eq_self.mpr
          intro a ha
          simp at ha ⊢
          omega
        rw [h0, hall]
        simp

end Rdx

namespace Rdx

/-- C6: for any dyad, base good `base < n` (`n` the goods count of agent `i`,
whose holdings length drives the loop), and any `k`, the list returned by
`candidate_goods_pruned` (before the caller appends the numeraire) has length
exactly `min k (n - 1)`, contains no duplicate good index, and never contains
the base good itself. -/
theorem C6_candidate_goods_pruned_spec (i j : Agent) (base k : ℕ)
    (min_qty : ℝ) (hbase : base < i.e.length) :
    (candidate_goods_pruned i j base k min_qty).length =
        min k (i.e.length - 1) ∧
      (candidate_goods_pruned i j base k min_qty).Nodup ∧
      base ∉ candidate_goods_pruned i j base k min_qty := by
  unfold candidate_goods_pruned
  set n := i.e.length with hn
  set filtered := (List.range n).filter (fun g => g ≠ base) with hfiltered
  set scored := filtered.map (fun g => (g, mrs_disagreement i j g base min_qty))
    with hscored
  set sorted := scored.mergeSort (fun p q => decide (q.2 ≤ p.2)) with hsorted
  have hperm : List.Perm sorted scored := List.mergeSort_perm scored _
  have hlenf : filtered.length = n - 1 := length_filter_ne_base n base hbase
  have hlens : sorted.length = n - 1 := by
    rw [hperm.length_eq, hscored, List.length_map, hlenf]
  have hfst : scored.map Prod.fst = filtered := by
    rw [hscored, List.map_map]
    exact List.map_id'' (fun _ => rfl) filtered
  have hpermfst : List.Perm (sorted.map Prod.fst) filtered := by
    rw [← hfst]
    exact hperm.map Prod.fst
  have hmaptake : ∀ m : ℕ, (sorted.take m).map Prod.fst =
      (sorted.map Prod.fst).take m := by
    intro m
    rw [List.map_take]
  refine ⟨?_, ?_, ?_⟩
  · rw [hmaptake, List.length_take]
    simp only [List.length_map, List.length_mergeSort]
    rw [length_filter_ne_base n base hbase]
    omega
  · rw [hmaptake]
    refine List.Nodup.sublist (List.take_sublist _ _) ?_
    refine hpermfst.symm.nodup ?_
    exact List.Nodup.filter _ (List.nodup_range n)
  · intro hmem
    rw [hmaptake] at hmem
    have : base ∈ sorted.map Prod.fst := (List.take_sublist _ _).mem hmem
    have : base ∈ filtered := hpermfst.mem_iff.mp this
    rw [hfiltered] at this
    simp at this

/-- C6 witness at concrete inputs. -/
theorem C6_candidate_goods_pruned_spec_witness :
    (candidate_goods_pruned ⟨[1, 2, 3], [1, 0, 0], [1, 1, 1]⟩
        ⟨[3, 2, 1], [0, 0, 1], [1, 1, 1]⟩ 0 1 1).length = min 1 (3 - 1) ∧
      (candidate_goods_pruned ⟨[1, 2, 3], [1, 0, 0], [1, 1, 1]⟩
        ⟨[3, 2, 1], [0, 0, 1], [1, 1, 1]⟩ 0 1 1).Nodup ∧
      0 ∉ candidate_goods_pruned ⟨[1, 2, 3], [1, 0, 0], [1, 1, 1]⟩
        ⟨[3, 2, 1], [0, 0, 1], [1, 1, 1]⟩ 0 1 1 :=
  C6_candidate_goods_pruned_spec _ _ 0 1 1 (by decide)

/-- Deconstruction of a successful `evaluate_pairwise_trade`: the candidate's
utility deltas are strictly positive and are exactly the full-vector
Cobb-Douglas utility deltas over the counterfactual bundles in which only
goods A and B are replaced by the oracle's post-trade quantities. -/
lemma evaluate_pairwise_trade_eq_some {i j : Agent} {good_a good_b base_good :
    ℕ} {min_qty : ℝ} {oracle_iters : ℕ} {oracle : OracleFn}
    {c : TradeCandidate}
    (h : evaluate_pairwise_trade i j good_a good_b base_good min_qty
      oracle_iters oracle = some c) :
    (0 < c.delta_u_i ∧ 0 < c.delta_u_j) ∧
      c.delta_u_i =
        cd_utility i.beta
          ((i.e.set good_a (trade_dyad i j good_a good_b base_good min_qty
              oracle_iters oracle).ai_post).set good_b
            (trade_dyad i j good_a good_b base_good min_qty oracle_iters
              oracle).bi_post) min_qty - cd_utility i.beta i.e min_qty ∧
      c.delta_u_j =
        cd_utility j.beta
          ((j.e.set good_a (trade_dyad i j good_a good_b base_good min_qty
              oracle_iters oracle).aj_post).set good_b
            (trade_dyad i j good_a good_b base_good min_qty oracle_iters
              oracle).bj_post) min_qty - cd_utility j.beta j.e min_qty := by
  simp only [evaluate_pairwise_trade] at h
  split at h
  · exact absurd h (by simp)
  split at h
  · exact absurd h (by simp)
  split at h
  · exact absurd h (by simp)
  split at h
  case _ hpos =>
    cases h
    exact ⟨⟨hpos.1, hpos.2⟩, rfl, rfl⟩
  · exact absurd h (by simp)

/-- Invariance of a predicate under `List.foldl`. -/
lemma foldl_preserve {α β : Type} (P : β → Prop) (f : β → α → β) (l : List α)
    (init : β) (h0 : P init) (hstep : ∀ acc x, P acc → P (f acc x)) :
    P (l.foldl f init) := by
  induction l generalizing init with
  | nil => exact h0
  | cons x xs ih => exact ih _ (hstep _ _ h0)

/-- `better` only ever returns the new candidate or the previous best. -/
lemma better_preserves {best : Option TradeCandidate} {cand : TradeCandidate}
    (hb : ∀ c, best = some c → 0 < c.delta_u_i ∧ 0 < c.delta_u_j)
    (hc : 0 < cand.delta_u_i ∧ 0 < cand.delta_u_j) :
    ∀ c, better best cand = some c → 0 < c.delta_u_i ∧ 0 < c.delta_u_j := by
  intro c h
  cases best with
  | none =>
      simp only [better] at h
      cases h
      exact hc
  | some bc =>
      simp only [better] at h
      split at h
      · cases h
        exact hc
      · cases h
        exact hb _ rfl

/-- The common search step used by both `best_trade_*` folds preserves
positivity of the stored best candidate. -/
lemma search_step_preserves (i j : Agent) (base_good : ℕ) (min_qty : ℝ)
    (oracle_iters : ℕ) (oracle : OracleFn) (a b : ℕ)
    (best : Option TradeCandidate)
    (hb : ∀ c, best = some c → 0 < c.delta_u_i ∧ 0 < c.delta_u_j) :
    ∀ c, (match evaluate_pairwise_trade i j a b base_good min_qty oracle_iters
        oracle with
      | none => best
      | some cand => better best cand) = some c →
      0 < c.delta_u_i ∧ 0 < c.delta_u_j := by
  rcases heval : evaluate_pairwise_trade i j a b base_good min_qty oracle_iters
    oracle with _ | cand
  · simpa [heval] using hb
  · have hc := (evaluate_pairwise_trade_eq_some heval).1
    simpa [heval] using better_preserves hb hc

end Rdx

namespace Rdx

/-- C3: every `TradeCandidate` produced by `evaluate_pairwise_trade` has
`delta_u_i > 0` and `delta_u_j > 0`, where the deltas are exactly the
full-vector Cobb-Douglas utility deltas over counterfactual bundles replacing
only goods A and B by the oracle's post-trade quantities; consequently the
candidates selected by `best_trade_against_base` and
`best_trade_over_all_pairs_pruned` also satisfy both strict inequalities. -/
theorem C3_strict_improvement (i j : Agent) (good_a good_b base_good k : ℕ)
    (min_qty : ℝ) (oracle_iters : ℕ) (oracle : OracleFn) :
    (∀ c, evaluate_pairwise_trade i j good_a good_b base_good min_qty
        oracle_iters oracle = some c →
      (0 < c.delta_u_i ∧ 0 < c.delta_u_j) ∧
        c.delta_u_i =
          cd_utility i.beta
            ((i.e.set good_a (trade_dyad i j good_a good_b base_good min_qty
                oracle_iters oracle).ai_post).set good_b
              (trade_dyad i j good_a good_b base_good min_qty oracle_iters
                oracle).bi_post) min_qty - cd_utility i.beta i.e min_qty ∧
        c.delta_u_j =
          cd_utility j.beta
            ((j.e.set good_a (trade_dyad i j good_a good_b base_good min_qty
                oracle_iters oracle).aj_post).set good_b
              (trade_dyad i j good_a good_b base_good min_qty oracle_iters
                oracle).bj_post) min_qty - cd_utility j.beta j.e min_qty) ∧
      (∀ c, best_trade_against_base i j base_good min_qty oracle_iters oracle =
          some c → 0 < c.delta_u_i ∧ 0 < c.delta_u_j) ∧
      (∀ c, best_trade_over_all_pairs_pruned i j base_good k min_qty
          oracle_iters oracle = some c →
        0 < c.delta_u_i ∧ 0 < c.delta_u_j) := by
  refine ⟨fun c h => evaluate_pairwise_trade_eq_some h, ?_, ?_⟩
  · unfold best_trade_against_base
    split
    · simp
    · refine foldl_preserve
        (fun o : Option TradeCandidate => ∀ c, o = some c → 0 < c.delta_u_i ∧ 0 < c.delta_u_j) _ _ _
        (by simp) ?_
      intro acc a hacc
      by_cases ha : a = base_good
      · simpa [ha] using hacc
      · simpa [ha] using
          search_step_preserves i j base_good min_qty oracle_iters oracle a
            base_good acc hacc
  · unfold best_trade_over_all_pairs_pruned
    split
    · simp
    · refine foldl_preserve
        (fun o : Option TradeCandidate => ∀ c, o = some c → 0 < c.delta_u_i ∧ 0 < c.delta_u_j) _ _ _
        (by simp) ?_
      intro acc a hacc
      refine foldl_preserve
        (fun o : Option TradeCandidate => ∀ c, o = some c → 0 < c.delta_u_i ∧ 0 < c.delta_u_j) _ _ _
        hacc ?_
      intro acc' b hacc'
      by_cases hab : a = b
      · simpa [hab] using hacc'
      · simpa [hab] using
          search_step_preserves i j base_good min_qty oracle_iters oracle a b
            acc' hacc'

end Rdx

namespace Rdx

/-- C3 witness: a concrete dyad and oracle on which `evaluate_pairwise_trade`
returns a candidate, whose utility deltas are strictly positive by the
theorem. -/
theorem C3_strict_improvement_witness :
    ∃ c, evaluate_pairwise_trade ⟨[1, 4], [1, 0], [1/2, 1/2]⟩
        ⟨[4, 1], [0, 1], [1/2, 1/2]⟩ 0 1 1 1 0
        (fun _ _ _ _ _ _ _ _ => DyadExchange.mk 1 2 3 3 2) = some c ∧
      0 < c.delta_u_i ∧ 0 < c.delta_u_j := by
  have heval : evaluate_pairwise_trade ⟨[1, 4], [1, 0], [1/2, 1/2]⟩
      ⟨[4, 1], [0, 1], [1/2, 1/2]⟩ 0 1 1 1 0
      (fun _ _ _ _ _ _ _ _ => DyadExchange.mk 1 2 3 3 2) =
      some ⟨0, 1, 1, 1, -1, 1, 1⟩ := by
    norm_num [evaluate_pairwise_trade, trade_dyad, cd_utility, Real.exp_log,
      Real.log_one, List.set]
  exact ⟨_, heval,
    ((C3_strict_improvement ⟨[1, 4], [1, 0], [1/2, 1/2]⟩
        ⟨[4, 1], [0, 1], [1/2, 1/2]⟩ 0 1 1 0 1 0
        (fun _ _ _ _ _ _ _ _ => DyadExchange.mk 1 2 3 3 2)).1 _ heval).1⟩

lemma getD_set_self {α : Type} (l : List α) (n : ℕ) (v d : α)
    (h : n < l.length) : (l.set n v).getD n d = v := by
  simp [List.getD_eq_getElem?_getD, List.getElem?_set_self h]

lemma getD_set_ne {α : Type} (l : List α) (n m : ℕ) (v d : α) (h : n ≠ m) :
    (l.set n v).getD m d = l.getD m d := by
  simp [List.getD_eq_getElem?_getD, List.getElem?_set_ne h]

lemma getD_set {α : Type} (l : List α) (n k : ℕ) (v d : α) :
    (l.set n v).getD k d = if n = k ∧ n < l.length then v else l.getD k d := by
  rw [List.getD_eq_getElem?_getD, List.getD_eq_getElem?_getD,
    List.getElem?_set]
  by_cases h1 : n = k
  · subst h1
    by_cases h2 : n < l.length
    · simp [h2]
    · have : l[n]? = none := List.getElem?_eq_none (le_of_not_lt h2)
      simp [h2, this]
  · simp [h1]

/-- The two post-trade holdings of the dyad at the traded goods, when no
`min_qty` floor binds and the two goods are distinct in-range indices. -/
lemma apply_trade_getD (i j : Agent) (cand : TradeCandidate) (mq : ℝ)
    (hab : cand.good_a ≠ cand.good_b)
    (hai : cand.good_a < i.e.length) (hbi : cand.good_b < i.e.length)
    (haj : cand.good_a < j.e.length) (hbj : cand.good_b < j.e.length)
    (h1 : mq ≤ i.e.getD cand.good_a 0 + cand.delta_a_i)
    (h2 : mq ≤ i.e.getD cand.good_b 0 + cand.delta_b_i)
    (h3 : mq ≤ j.e.getD cand.good_a 0 - cand.delta_a_i)
    (h4 : mq ≤ j.e.getD cand.good_b 0 - cand.delta_b_i) :
    (apply_trade i j cand mq).1.e.getD cand.good_a 0 =
        i.e.getD cand.good_a 0 + cand.delta_a_i ∧
      (apply_trade i j cand mq).1.e.getD cand.good_b 0 =
        i.e.getD cand.good_b 0 + cand.delta_b_i ∧
      (apply_trade i j cand mq).2.e.getD cand.good_a 0 =
        j.e.getD cand.good_a 0 - cand.delta_a_i ∧
      (apply_trade i j cand mq).2.e.getD cand.good_b 0 =
        j.e.getD cand.good_b 0 - cand.delta_b_i := by
  unfold apply_trade
  simp only
  refine ⟨?_, ?_, ?_, ?_⟩
  · rw [getD_set_ne _ _ _ _ _ (Ne.symm hab),
      getD_set_self _ _ _ _ hai, max_eq_left h1]
  · rw [getD_set_self _ _ _ _ (by simpa using hbi),
      getD_set_ne _ _ _ _ _ hab, max_eq_left h2]
  · rw [getD_set_ne _ _ _ _ _ (Ne.symm hab),
      getD_set_self _ _ _ _ haj, max_eq_left h3]
  · rw [getD_set_self _ _ _ _ (by simpa using hbj),
      getD_set_ne _ _ _ _ _ hab, max_eq_left h4]

end Rdx

namespace Rdx

/-- A candidate with both quantity deltas uniformly scaled by `cap`, as the
step cap in `run` produces. -/
noncomputable def scale_deltas (cand : TradeCandidate) (cap : ℝ) : TradeCandidate :=
  { cand with delta_a_i := cand.delta_a_i * cap, delta_b_i := cand.delta_b_i * cap }

/-- C4 (amended): when the two traded goods are distinct in-range indices and
no `min_qty` floor binds, `apply_trade` adds the candidate's deltas to agent
`i` and subtracts them from agent `j`, so the dyad's totals of both traded
goods are exactly conserved; and for any step-cap factor `cap ∈ (0,1]`,
applying the candidate with both deltas uniformly scaled by `cap` (as the
simulation loop's step cap does) likewise conserves both totals, the scaled
updates staying above the floor because the pre-trade quantities already
are. -/
theorem C4_apply_trade_conservation (i j : Agent) (cand : TradeCandidate)
    (mq : ℝ) (hab : cand.good_a ≠ cand.good_b)
    (hai : cand.good_a < i.e.length) (hbi : cand.good_b < i.e.length)
    (haj : cand.good_a < j.e.length) (hbj : cand.good_b < j.e.length)
    (hpre1 : mq ≤ i.e.getD cand.good_a 0) (hpre2 : mq ≤ i.e.getD cand.good_b 0)
    (hpre3 : mq ≤ j.e.getD cand.good_a 0) (hpre4 : mq ≤ j.e.getD cand.good_b 0)
    (h1 : mq ≤ i.e.getD cand.good_a 0 + cand.delta_a_i)
    (h2 : mq ≤ i.e.getD cand.good_b 0 + cand.delta_b_i)
    (h3 : mq ≤ j.e.getD cand.good_a 0 - cand.delta_a_i)
    (h4 : mq ≤ j.e.getD cand.good_b 0 - cand.delta_b_i) :
    ((apply_trade i j cand mq).1.e.getD cand.good_a 0 +
        (apply_trade i j cand mq).2.e.getD cand.good_a 0 =
      i.e.getD cand.good_a 0 + j.e.getD cand.good_a 0 ∧
    (apply_trade i j cand mq).1.e.getD cand.good_b 0 +
        (apply_trade i j cand mq).2.e.getD cand.good_b 0 =
      i.e.getD cand.good_b 0 + j.e.getD cand.good_b 0) ∧
    ∀ cap : ℝ, 0 < cap → cap ≤ 1 →
      (apply_trade i j (scale_deltas cand cap) mq).1.e.getD cand.good_a 0 +
        (apply_trade i j (scale_deltas cand cap) mq).2.e.getD cand.good_a 0 =
        i.e.getD cand.good_a 0 + j.e.getD cand.good_a 0 ∧
      (apply_trade i j (scale_deltas cand cap) mq).1.e.getD cand.good_b 0 +
        (apply_trade i j (scale_deltas cand cap) mq).2.e.getD cand.good_b 0 =
        i.e.getD cand.good_b 0 + j.e.getD cand.good_b 0 := by
  constructor
  · obtain ⟨e1, e2, e3, e4⟩ := apply_trade_getD i j cand mq hab hai hbi haj hbj
      h1 h2 h3 h4
    constructor
    · rw [e1, e3]; ring
    · rw [e2, e4]; ring
  · intro cap hcap0 hcap1
    have hs1 : mq ≤ i.e.getD cand.good_a 0 + cand.delta_a_i * cap := by
      nlinarith [mul_nonneg (sub_nonneg.mpr hcap1) (sub_nonneg.mpr hpre1),
        mul_nonneg hcap0.le (sub_nonneg.mpr h1)]
    have hs2 : mq ≤ i.e.getD cand.good_b 0 + cand.delta_b_i * cap := by
      nlinarith [mul_nonneg (sub_nonneg.mpr hcap1) (sub_nonneg.mpr hpre2),
        mul_nonneg hcap0.le (sub_nonneg.mpr h2)]
    have hs3 : mq ≤ j.e.getD cand.good_a 0 - cand.delta_a_i * cap := by
      nlinarith [mul_nonneg (sub_nonneg.mpr hcap1) (sub_nonneg.mpr hpre3),
        mul_nonneg hcap0.le (sub_nonneg.mpr h3)]
    have hs4 : mq ≤ j.e.getD cand.good_b 0 - cand.delta_b_i * cap := by
      nlinarith [mul_nonneg (sub_nonneg.mpr hcap1) (sub_nonneg.mpr hpre4),
        mul_nonneg hcap0.le (sub_nonneg.mpr h4)]
    obtain ⟨e1, e2, e3, e4⟩ := apply_trade_getD i j (scale_deltas cand cap) mq
      (by simpa [scale_deltas] using hab)
      (by simpa [scale_deltas] using hai) (by simpa [scale_deltas] using hbi)
      (by simpa [scale_deltas] using haj) (by simpa [scale_deltas] using hbj)
      (by simpa [scale_deltas] using hs1) (by simpa [scale_deltas] using hs2)
      (by simpa [scale_deltas] using hs3) (by simpa [scale_deltas] using hs4)
    simp only [scale_deltas] at e1 e2 e3 e4 ⊢
    refine ⟨?_, ?_⟩
    · rw [e1, e3]; ring
    · rw [e2, e4]; ring

/-- C4 counterexample: when the `min_qty` floor binds (here agent `i` would be
pushed to `-1` of good 0 and is floored to `1/10`), the dyad's total of the
traded good is *not* conserved, refuting exact conservation together with
universal flooring. -/
theorem C4_apply_trade_conservation_cex :
    ¬ ((apply_trade ⟨[1, 1], [1, 0], [1, 1]⟩ ⟨[1, 1], [0, 1], [1, 1]⟩
          ⟨0, 1, 1, -2, 0, 1, 1⟩ (1 / 10)).1.e.getD 0 0 +
        (apply_trade ⟨[1, 1], [1, 0], [1, 1]⟩ ⟨[1, 1], [0, 1], [1, 1]⟩
          ⟨0, 1, 1, -2, 0, 1, 1⟩ (1 / 10)).2.e.getD 0 0 =
      (1 : ℝ) + 1) := by
  norm_num [apply_trade, List.set, List.getD, max_def]

/-- C4 witness: a concrete dyad and candidate with distinct in-range goods and
non-binding floors, on which `apply_trade` conserves the total of good 0. -/
theorem C4_apply_trade_conservation_witness :
    (apply_trade ⟨[1, 1], [1, 0], [1, 1]⟩ ⟨[1, 1], [0, 1], [1, 1]⟩
        ⟨0, 1, 1, 1/4, -1/4, 1, 1⟩ (1/2)).1.e.getD 0 0 +
      (apply_trade ⟨[1, 1], [1, 0], [1, 1]⟩ ⟨[1, 1], [0, 1], [1, 1]⟩
        ⟨0, 1, 1, 1/4, -1/4, 1, 1⟩ (1/2)).2.e.getD 0 0 = (1 : ℝ) + 1 := by
  have h := (C4_apply_trade_conservation ⟨[1, 1], [1, 0], [1, 1]⟩
    ⟨[1, 1], [0, 1], [1, 1]⟩ ⟨0, 1, 1, 1/4, -1/4, 1, 1⟩ (1/2)
    (by decide) (by decide) (by decide) (by decide) (by decide)
    (by norm_num [List.getD]) (by norm_num [List.getD])
    (by norm_num [List.getD]) (by norm_num [List.getD])
    (by norm_num [List.getD]) (by norm_num [List.getD])
    (by norm_num [List.getD]) (by norm_num [List.getD])).1.1
  simpa [List.getD] using h

end Rdx

namespace Rdx

/-- The bisection bracket stays strictly positive throughout. -/
lemma bisect_iter_pos (alpha_i ai bi alpha_j aj bj : ℝ) :
    ∀ (k : ℕ) (pr : ℝ × ℝ), 0 < pr.1 → 0 < pr.2 →
      0 < (bisect_iter alpha_i ai bi alpha_j aj bj k pr).1 ∧
        0 < (bisect_iter alpha_i ai bi alpha_j aj bj k pr).2 := by
  intro k
  induction k with
  | zero =>
      intro pr h1 h2
      simpa [bisect_iter] using ⟨h1, h2⟩
  | succ k ih =>
      intro pr h1 h2
      obtain ⟨plo, phi⟩ := pr
      have hmid : 0 < Real.sqrt (plo * phi) :=
        Real.sqrt_pos.mpr (mul_pos h1 h2)
      simp only [bisect_iter]
      split
      · exact ih (_, _) hmid h2
      · exact ih (_, _) h1 hmid

/-- The oracle's final price is strictly positive, for any inputs and any
iteration count. -/
lemma solve_price_pos (alpha_i ai bi alpha_j aj bj : ℝ) (iters : ℕ) :
    0 < solve_price alpha_i ai bi alpha_j aj bj iters := by
  unfold solve_price
  have h := bisect_iter_pos alpha_i ai bi alpha_j aj bj iters
    (1 / 10 ^ 6, 10 ^ 6) (by norm_num) (by norm_num)
  exact Real.sqrt_pos.mpr (mul_pos h.1 h.2)

end Rdx

namespace Rdx

/-- C1 (amended): for inputs already at or above the floor and whenever none of
the four computed demands falls below `min_qty` (so no output floor binds),
`solve_two_good_exchange` conserves the dyad's total *value* at the returned
price exactly: `p*(ai_post + aj_post) + (bi_post + bj_post) =
p*(a_i + a_j) + (b_i + b_j)`, for every iteration count.  Per-good quantity
conservation holds exactly only at an exactly market-clearing price; after
finitely many bisection steps the returned price need not clear the market, so
the claim's universal `1e-6` bound for all inputs and all `iters ≥ 1` fails
(see the counterexample). -/
theorem C1_value_conservation (alpha_i ai bi alpha_j aj bj mq : ℝ)
    (iters : ℕ)
    (hai : mq ≤ ai) (hbi : mq ≤ bi) (haj : mq ≤ aj) (hbj : mq ≤ bj)
    (hd1 : mq ≤ clamp01 alpha_i *
      (solve_price (clamp01 alpha_i) ai bi (clamp01 alpha_j) aj bj iters * ai
        + bi) /
      solve_price (clamp01 alpha_i) ai bi (clamp01 alpha_j) aj bj iters)
    (hd2 : mq ≤ (1 - clamp01 alpha_i) *
      (solve_price (clamp01 alpha_i) ai bi (clamp01 alpha_j) aj bj iters * ai
        + bi))
    (hd3 : mq ≤ clamp01 alpha_j *
      (solve_price (clamp01 alpha_i) ai bi (clamp01 alpha_j) aj bj iters * aj
        + bj) /
      solve_price (clamp01 alpha_i) ai bi (clamp01 alpha_j) aj bj iters)
    (hd4 : mq ≤ (1 - clamp01 alpha_j) *
      (solve_price (clamp01 alpha_i) ai bi (clamp01 alpha_j) aj bj iters * aj
        + bj)) :
    (solve_two_good_exchange alpha_i ai bi alpha_j aj bj mq iters).q_ab *
        ((solve_two_good_exchange alpha_i ai bi alpha_j aj bj mq iters).ai_post
          + (solve_two_good_exchange alpha_i ai bi alpha_j aj bj mq
            iters).aj_post) +
      ((solve_two_good_exchange alpha_i ai bi alpha_j aj bj mq iters).bi_post +
        (solve_two_good_exchange alpha_i ai bi alpha_j aj bj mq
          iters).bj_post) =
    (solve_two_good_exchange alpha_i ai bi alpha_j aj bj mq iters).q_ab *
        (ai + aj) + (bi + bj) := by
  have hm1 : max ai mq = ai := max_eq_left hai
  have hm2 : max bi mq = bi := max_eq_left hbi
  have hm3 : max aj mq = aj := max_eq_left haj
  have hm4 : max bj mq = bj := max_eq_left hbj
  simp only [solve_two_good_exchange, hm1, hm2, hm3, hm4]
  rw [max_eq_left hd1, max_eq_left hd2, max_eq_left hd3, max_eq_left hd4]
  have hp : (0 : ℝ) <
      solve_price (clamp01 alpha_i) ai bi (clamp01 alpha_j) aj bj iters :=
    solve_price_pos _ _ _ _ _ _ _
  field_simp
  ring

/-- C1 witness: with `iters = 0` the price is the geometric midpoint `1` of
the initial bracket; at symmetric unit inputs no floor binds and value
conservation holds. -/
theorem C1_value_conservation_witness :
    (solve_two_good_exchange (1/2) 1 1 (1/2) 1 1 (1/2) 0).q_ab *
        ((solve_two_good_exchange (1/2) 1 1 (1/2) 1 1 (1/2) 0).ai_post +
          (solve_two_good_exchange (1/2) 1 1 (1/2) 1 1 (1/2) 0).aj_post) +
      ((solve_two_good_exchange (1/2) 1 1 (1/2) 1 1 (1/2) 0).bi_post +
        (solve_two_good_exchange (1/2) 1 1 (1/2) 1 1 (1/2) 0).bj_post) =
    (solve_two_good_exchange (1/2) 1 1 (1/2) 1 1 (1/2) 0).q_ab * (1 + 1) +
      (1 + 1) := by
  have hp0 : solve_price (clamp01 (1/2)) 1 1 (clamp01 (1/2)) 1 1 0 = 1 := by
    simp only [solve_price, bisect_iter]
    rw [show ((1 : ℝ) / 10 ^ 6 * 10 ^ 6) = 1 by norm_num, Real.sqrt_one]
  exact C1_value_conservation (1/2) 1 1 (1/2) 1 1 (1/2) 0
    (by norm_num) (by norm_num) (by norm_num) (by norm_num)
    (by rw [hp0]; norm_num [clamp01]) (by rw [hp0]; norm_num [clamp01])
    (by rw [hp0]; norm_num [clamp01]) (by rw [hp0]; norm_num [clamp01])

/-- C1 counterexample: at positive inputs `alpha = 1/2`, all quantities `1`,
`min_qty = 1e-9` and `iters = 1`, the final price is `1e-3`, the post-trade
totals are `1001` of A and `1.001` of B against pre-trade totals of `2` each,
so conservation fails the claimed `1e-6` tolerance by nine orders of
magnitude. -/
theorem C1_conservation_cex :
    (0 : ℝ) < 1 ∧ (0 : ℝ) < 1 / 10 ^ 9 ∧ 1 ≤ 1 ∧
    ¬ (|(solve_two_good_exchange (1/2) 1 1 (1/2) 1 1 (1/10^9) 1).ai_post +
          (solve_two_good_exchange (1/2) 1 1 (1/2) 1 1 (1/10^9) 1).aj_post -
          (1 + 1)| < 1/10^6 ∧
        |(solve_two_good_exchange (1/2) 1 1 (1/2) 1 1 (1/10^9) 1).bi_post +
          (solve_two_good_exchange (1/2) 1 1 (1/2) 1 1 (1/10^9) 1).bj_post -
          (1 + 1)| < 1/10^6) := by
  refine ⟨by norm_num, by norm_num, le_refl 1, ?_⟩
  have h1 : Real.sqrt ((1 : ℝ) / 10 ^ 6 * 10 ^ 6) = 1 := by
    rw [show ((1 : ℝ) / 10 ^ 6 * 10 ^ 6) = 1 by norm_num, Real.sqrt_one]
  have h2 : Real.sqrt ((1000000 : ℝ)) = 1000 := by
    rw [show ((1000000 : ℝ)) = 1000 ^ 2 by norm_num,
      Real.sqrt_sq (by norm_num : (0 : ℝ) ≤ 1000)]
  have hex : solve_two_good_exchange (1/2) 1 1 (1/2) 1 1 (1/10^9) 1 =
      ⟨1/1000, 1001/2, 1001/2000, 1001/2, 1001/2000⟩ := by
    simp only [solve_two_good_exchange, solve_price, bisect_iter,
      excess_demand_a, clamp01]
    norm_num [h1, h2, max_def]
  rw [hex]
  intro h
  obtain ⟨ha, _⟩ := h
  rw [show ((1001 : ℝ)/2 + 1001/2 - (1 + 1)) = 999 by norm_num,
    abs_of_pos (by norm_num : (0 : ℝ) < 999)] at ha
  norm_num at ha

lemma rclamp_eq_self {x lo hi : ℝ} (h1 : lo ≤ x) (h2 : x ≤ hi) :
    rclamp x lo hi = x := by
  unfold rclamp
  rw [if_neg (not_lt.mpr h1), if_neg (not_lt.mpr h2)]

lemma getD_range_map (f : ℕ → ℝ) (n k : ℕ) (hk : k < n) :
    ((List.range n).map f).getD k 0 = f k := by
  rw [List.getD_eq_getElem?_getD]
  simp [List.getElem?_map, List.getElem?_range hk]

lemma sum_map_div (l : List ℝ) (c : ℝ) :
    (l.map (fun x => x / c)).sum = l.sum / c := by
  induction l with
  | nil => simp
  | cons x xs ih => simp [ih, add_div]

/-- For an entry within the clamp bounds, the pairwise denominator is
strictly positive (given a positive base weight). -/
lemma pair_denom_pos {bk bb : ℝ} (hbb : 0 < bb)
    (h1 : 1 / 10 ^ 6 ≤ bk / (bk + bb)) (h2 : bk / (bk + bb) ≤ 1 - 1 / 10 ^ 6) :
    0 < bk + bb := by
  rcases lt_trichotomy (bk + bb) 0 with hden | hden | hden
  · exfalso
    set x := bk / (bk + bb) with hx
    have hxden : x * (bk + bb) = bk := by
      rw [hx, div_mul_cancel₀ _ hden.ne]
    have hbb' : bb = (bk + bb) * (1 - x) := by
      nlinarith [hxden]
    nlinarith [mul_neg_of_neg_of_pos hden (show (0 : ℝ) < 1 - x by nlinarith)]
  · exfalso
    rw [hden] at h1
    norm_num at h1
  · exact hden

end Rdx

namespace Rdx

/-- C5 (amended): whenever no clamp binds — each ratio
`beta_k/(beta_k + beta_base)` already lies in `[1e-6, 1 - 1e-6]` — and the
numeraire weight is positive, deriving the pairwise-to-numeraire parameters
from a normalized weight vector and re-aggregating with
`beta_from_alpha_to_base` reproduces the original vector *exactly* (so with
zero total absolute error).  When a clamp binds, the round trip can exceed
the claimed `1e-6` total error (see the counterexample). -/
theorem C5_roundtrip_exact (beta : List ℝ) (base : ℕ)
    (hbase : base < beta.length) (hsum : beta.sum = 1)
    (hbpos : 0 < beta.getD base 0)
    (hclamp : ∀ k, k < beta.length → k ≠ base →
      1 / 10 ^ 6 ≤ beta.getD k 0 / (beta.getD k 0 + beta.getD base 0) ∧
        beta.getD k 0 / (beta.getD k 0 + beta.getD base 0) ≤ 1 - 1 / 10 ^ 6) :
    beta_from_alpha_to_base
      ((List.range beta.length).map (fun k =>
        if k = base then (1 / 2 : ℝ)
        else rclamp (beta.getD k 0 / (beta.getD k 0 + beta.getD base 0))
          (1 / 10 ^ 6) (1 - 1 / 10 ^ 6))) base (1 / 10 ^ 6) = beta := by
  set n := beta.length with hn
  set bb := beta.getD base 0 with hbb
  set alphaStar := (List.range n).map (fun k =>
    if k = base then (1 / 2 : ℝ)
    else rclamp (beta.getD k 0 / (beta.getD k 0 + bb))
      (1 / 10 ^ 6) (1 - 1 / 10 ^ 6)) with halpha
  have hlen : alphaStar.length = n := by
    rw [halpha, List.length_map, List.length_range]
  show normalize ((List.range alphaStar.length).map (fun k =>
      if k = base then (1 : ℝ)
      else rclamp (alphaStar.getD k 0) (1 / 10 ^ 6) (1 - 1 / 10 ^ 6) /
        (1 - rclamp (alphaStar.getD k 0) (1 / 10 ^ 6) (1 - 1 / 10 ^ 6)))) =
    beta
  rw [hlen]
  have hentry : ∀ k, k < n → k ≠ base →
      rclamp (alphaStar.getD k 0) (1 / 10 ^ 6) (1 - 1 / 10 ^ 6) =
        beta.getD k 0 / (beta.getD k 0 + bb) := by
    intro k hk hkb
    obtain ⟨hc1, hc2⟩ := hclamp k hk hkb
    rw [halpha, getD_range_map _ _ _ hk, if_neg hkb,
      rclamp_eq_self hc1 hc2, rclamp_eq_self hc1 hc2]
  have hraw_eq : (List.range n).map (fun k =>
      if k = base then (1 : ℝ)
      else rclamp (alphaStar.getD k 0) (1 / 10 ^ 6) (1 - 1 / 10 ^ 6) /
        (1 - rclamp (alphaStar.getD k 0) (1 / 10 ^ 6) (1 - 1 / 10 ^ 6))) =
      beta.map (fun y => y / bb) := by
    apply List.ext_getElem
    · rw [List.length_map, List.length_range, List.length_map, hn]
    · intro k h1 h2
      simp only [List.length_map, List.length_range] at h1
      have hk : k < n := h1
      simp only [List.getElem_map, List.getElem_range]
      by_cases hkb : k = base
      · subst hkb
        rw [if_pos rfl]
        have hbk : beta[k] = bb := by
          rw [hbb, List.getD_eq_getElem _ _ hbase]
        rw [hbk]
        exact (div_self hbpos.ne').symm
      · rw [if_neg hkb, hentry k hk hkb]
        obtain ⟨hc1, hc2⟩ := hclamp k hk hkb
        have hden : 0 < beta.getD k 0 + bb := pair_denom_pos hbpos hc1 hc2
        have hbk : beta.getD k 0 = beta[k] := by
          rw [List.getD_eq_getElem _ _ (by omega)]
        rw [← hbk]
        set x := beta.getD k 0 with hx
        have h1x : 1 - x / (x + bb) = bb / (x + bb) := by
          field_simp
        rw [h1x]
        rw [div_div_div_eq]
        rw [mul_comm (x + bb) bb, ← div_div_div_eq]
        rw [div_self hden.ne', div_one]
  rw [hraw_eq]
  unfold normalize
  simp only [sum_map_div, hsum]
  rw [if_pos (by positivity : (0 : ℝ) < 1 / bb)]
  rw [List.map_map]
  have hfun : ((fun x : ℝ => x / (1 / bb)) ∘ (fun y : ℝ => y / bb)) =
      fun y : ℝ => y := by
    funext y
    simp only [Function.comp_apply]
    field_simp
  rw [hfun]
  exact List.map_id beta

/-- Uniform normalized weight vector of length 15 (for the C5 witness). -/
noncomputable def u15 : List ℝ :=
  [1/15, 1/15, 1/15, 1/15, 1/15, 1/15, 1/15, 1/15, 1/15, 1/15, 1/15, 1/15,
    1/15, 1/15, 1/15]

/-- C5 witness: on the uniform length-15 vector no clamp binds and the round
trip is exact. -/
theorem C5_roundtrip_exact_witness :
    beta_from_alpha_to_base
      ((List.range u15.length).map (fun k =>
        if k = 0 then (1 / 2 : ℝ)
        else rclamp (u15.getD k 0 / (u15.getD k 0 + u15.getD 0 0))
          (1 / 10 ^ 6) (1 - 1 / 10 ^ 6))) 0 (1 / 10 ^ 6) = u15 := by
  refine C5_roundtrip_exact u15 0 (by norm_num [u15]) (by norm_num [u15])
    (by norm_num [u15]) ?_
  intro k hk hkb
  have hval : u15.getD k 0 = 1 / 15 := by
    simp only [u15] at hk ⊢
    norm_num at hk
    interval_cases k <;> rfl
  rw [hval]
  have h0 : u15.getD 0 0 = 1 / 15 := rfl
  rw [h0]
  constructor <;> norm_num

/-- Nearly degenerate normalized weight vector of length 15 (for the C5
counterexample): the numeraire weight is `1e-12`, good 1 carries almost all
weight, the rest are zero. -/
noncomputable def betaStar : List ℝ :=
  [1/10^12, 1 - 1/10^12, 0, 0, 0, 0, 0, 0, 0, 0, 0, 0, 0, 0, 0]

end Rdx

namespace Rdx

/-- C5 counterexample: `betaStar` is a non-negative length-15 weight vector
summing to 1, yet deriving the clamped pairwise parameters exactly as the
claim prescribes and re-aggregating with `beta_from_alpha_to_base` misses the
original vector by a total absolute error of about `2e-6 > 1e-6`: the clamp
at `1 - 1e-6` destroys the extreme weight ratio `(1 - 1e-12)/1e-12`. -/
theorem C5_roundtrip_cex :
    betaStar.length = 15 ∧ betaStar.sum = 1 ∧ (∀ x ∈ betaStar, 0 ≤ x) ∧
    ¬ ((List.zipWith (fun x y => |x - y|)
        (beta_from_alpha_to_base
          ((List.range betaStar.length).map (fun k =>
            if k = 0 then (1 / 2 : ℝ)
            else rclamp (betaStar.getD k 0 /
                (betaStar.getD k 0 + betaStar.getD 0 0))
              (1 / 10 ^ 6) (1 - 1 / 10 ^ 6))) 0 (1 / 10 ^ 6))
        betaStar).sum < 1 / 10 ^ 6) := by
  have halpha : ((List.range betaStar.length).map (fun k =>
      if k = 0 then (1 / 2 : ℝ)
      else rclamp (betaStar.getD k 0 / (betaStar.getD k 0 + betaStar.getD 0 0))
        (1 / 10 ^ 6) (1 - 1 / 10 ^ 6))) =
      [1/2, 1 - 1/10^6, 1/10^6, 1/10^6, 1/10^6, 1/10^6, 1/10^6, 1/10^6,
        1/10^6, 1/10^6, 1/10^6, 1/10^6, 1/10^6, 1/10^6, 1/10^6] := by
    rw [show betaStar.length = 15 from rfl,
      show List.range 15 = [0,1,2,3,4,5,6,7,8,9,10,11,12,13,14] from rfl]
    simp only [List.map]
    norm_num [betaStar, List.getD, rclamp]
  have hbfa : beta_from_alpha_to_base
      [1/2, 1 - 1/10^6, 1/10^6, 1/10^6, 1/10^6, 1/10^6, 1/10^6, 1/10^6,
        1/10^6, 1/10^6, 1/10^6, 1/10^6, 1/10^6, 1/10^6, 1/10^6] 0 (1/10^6) =
      [999999/999999000013, 999998000001/999999000013, 1/999999000013,
        1/999999000013, 1/999999000013, 1/999999000013, 1/999999000013,
        1/999999000013, 1/999999000013, 1/999999000013, 1/999999000013,
        1/999999000013, 1/999999000013, 1/999999000013, 1/999999000013] := by
    simp only [beta_from_alpha_to_base]
    rw [show ([1/2, 1 - 1/10^6, 1/10^6, 1/10^6, 1/10^6, 1/10^6, 1/10^6,
        1/10^6, 1/10^6, 1/10^6, 1/10^6, 1/10^6, 1/10^6, 1/10^6, 1/10^6] :
        List ℝ).length = 15 from rfl,
      show List.range 15 = [0,1,2,3,4,5,6,7,8,9,10,11,12,13,14] from rfl]
    simp only [List.map]
    norm_num [List.getD, rclamp, normalize]
  refine ⟨rfl, by norm_num [betaStar], ?_, ?_⟩
  · intro x hx
    simp only [betaStar, List.mem_cons, List.not_mem_nil, or_false] at hx
    rcases hx with rfl | hx
    · norm_num
    rcases hx with rfl | hx
    · norm_num
    have : x = 0 := by tauto
    rw [this]
  · rw [halpha, hbfa]
    simp only [betaStar, List.zipWith, List.sum_cons, List.sum_nil]
    simp only [sub_zero]
    rw [abs_of_pos
        (show (0:ℝ) < 999999/999999000013 - 1/10^12 by norm_num),
      abs_of_neg
        (show (999998000001/999999000013 : ℝ) - (1 - 1/10^12) < 0 by
          norm_num)]
    simp only [show |(1:ℝ)/999999000013| = 1/999999000013 from
      abs_of_pos (by norm_num)]
    norm_num

end Rdx

namespace Rdx

/-- A fold whose step appends exactly one element grows the list by the input
length. -/
lemma foldl_step_length {σ : Type} (f : List ℝ × σ → ℕ → List ℝ × σ)
    (hf : ∀ acc k, (f acc k).1.length = acc.1.length + 1) :
    ∀ (l : List ℕ) (acc : List ℝ × σ),
      (l.foldl f acc).1.length = acc.1.length + l.length := by
  intro l
  induction l with
  | nil => intro acc; simp
  | cons x xs ih =>
      intro acc
      rw [List.foldl_cons, ih, hf, List.length_cons]
      omega

/-- When the base good is in range, one agent's initialization draws cannot
abort: the `alpha_to_base` vector has length `n`, so the aggregation assert
passes. -/
lemma init_one_agent_ok {σ : Type} (R : Rng σ) (cfg : SimConfig) (n : ℕ)
    (h : cfg.base_good < n) (s : σ) :
    ∃ ag s', init_one_agent R cfg n s = .ok (ag, s') := by
  have hlen : ∀ s0 : σ, (((List.range n).foldl (fun (acc : List ℝ × σ) k =>
      if k = cfg.base_good then (acc.1 ++ [(1 / 2 : ℝ)], acc.2)
      else (acc.1 ++ [(R.genRangeReal cfg.alpha_low cfg.alpha_high acc.2).1],
        (R.genRangeReal cfg.alpha_low cfg.alpha_high acc.2).2))
      ([], s0)).1).length = n := by
    intro s0
    rw [foldl_step_length _ ?_ (List.range n) ([], s0)]
    · simp
    · intro acc k
      by_cases hk : k = cfg.base_good <;> simp [hk]
  simp only [init_one_agent]
  split
  case _ msg heq =>
    exfalso
    rw [beta_from_alpha_to_base_checked, if_pos (by rw [hlen]; exact h)] at heq
    cases heq
  case _ beta heq =>
    exact ⟨_, _, rfl⟩

/-- When the base good is in range, the agent-creation loop never aborts. -/
lemma init_agents_loop_ok {σ : Type} (R : Rng σ) (cfg : SimConfig) (n : ℕ)
    (h : cfg.base_good < n) :
    ∀ (m : ℕ) (acc : List Agent) (s : σ),
      ∃ ags, init_agents_loop R cfg n m acc s = .ok ags := by
  intro m
  induction m with
  | zero => intro acc s; exact ⟨acc, rfl⟩
  | succ m ih =>
      intro acc s
      obtain ⟨ag, s', heq⟩ := init_one_agent_ok R cfg n h s
      simp only [init_agents_loop, heq]
      exact ih _ _

end Rdx

namespace Rdx

/-- C8 (amended): if the goods list has fewer than two entries or its length
differs from `base_goods_quantity`, `init_agents` aborts before creating any
agent; conversely, when both conditions hold *and* `base_good` is in range
(the config contract `base_good < goods count`), no abort occurs and
initialization returns a state.  Without the extra range condition the second
half is false: `beta_from_alpha_to_base` asserts `base < n` during the first
agent's creation (see the counterexample). -/
theorem C8_init_validation {σ : Type} (R : Rng σ) (cfg : SimConfig) :
    ((cfg.base_goods.length < 2 ∨
        cfg.base_goods_quantity ≠ cfg.base_goods.length) →
      ∃ msg, init_agents R cfg = .error msg) ∧
    (2 ≤ cfg.base_goods.length →
      cfg.base_goods_quantity = cfg.base_goods.length →
      cfg.base_good < cfg.base_goods.length →
      ∃ st, init_agents R cfg = .ok st) := by
  constructor
  · intro hbad
    unfold init_agents
    by_cases h1 : cfg.base_goods_quantity ≠ cfg.base_goods.length
    · rw [if_pos h1]
      exact ⟨_, rfl⟩
    · rw [if_neg h1]
      have h2 : ¬ 2 ≤ cfg.base_goods.length := by omega
      rw [if_pos h2]
      exact ⟨_, rfl⟩
  · intro hge heq hbase
    unfold init_agents
    rw [if_neg (by omega), if_neg (by omega)]
    obtain ⟨ags, hl⟩ :=
      init_agents_loop_ok R cfg cfg.base_goods.length hbase cfg.num_agents []
        (R.seedFrom cfg.seed)
    simp only [hl]
    exact ⟨_, rfl⟩

/-- A trivial concrete deterministic generator used to instantiate theorems
at concrete configurations. -/
noncomputable def Rex : Rng Unit where
  seedFrom _ := ()
  genRangeNat _ _ := (0, ())
  genRangeReal _ _ _ := (1, ())

/-- A configuration with a well-formed goods roster (2 goods, matching count)
but an out-of-range numeraire index. -/
noncomputable def cfgBad : SimConfig where
  seed := 0
  num_agents := 1
  rounds := 0
  p2p_encounters_per_round := 0
  base_good := 5
  initial_endowment_scale := 1
  alpha_low := 0
  alpha_high := 1
  trade_step_cap_frac := 1
  min_qty := 0
  oracle_bisect_iters := 0
  pairing_mode := .againstBase
  candidate_goods_k := 0
  base_goods := ["a", "b"]
  base_goods_quantity := 2
  reaction_rules := []

/-- `cfgBad` with the numeraire index in range. -/
noncomputable def cfgGood : SimConfig := { cfgBad with base_good := 0 }

/-- C8 counterexample: `cfgBad` satisfies both stated conditions (goods count
2, matching declared count) yet initialization still aborts — inside the
first agent's preference aggregation, because `base_good = 5` is out of
range. -/
theorem C8_init_validation_cex :
    cfgBad.base_goods.length = 2 ∧
      cfgBad.base_goods_quantity = cfgBad.base_goods.length ∧
      init_agents Rex cfgBad = .error "assertion failed: base < n" :=
  ⟨rfl, rfl, rfl⟩

/-- C8 witness: on `cfgGood` (both conditions plus in-range numeraire) the
validation passes and initialization returns a state. -/
theorem C8_init_validation_witness :
    ∃ st, init_agents Rex cfgGood = .ok st :=
  (C8_init_validation Rex cfgGood).2 (by decide) rfl (by decide)

end Rdx

namespace Rdx

/-- C2: two executions of `init_agents` followed by `run` under identical
`SimConfig` values (every field equal: seed, num_agents, rounds,
p2p_encounters_per_round, base_good, all numeric parameters, pairing mode,
goods roster and count, reaction rules) and the same generator implementation
produce identical `TradeEvent` sequences, field for field.  The embedding of
`run` is a pure function of the configuration and the seeded generator, so
the event log depends on nothing else. -/
theorem C2_determinism {σ : Type} (R : Rng σ) (fuel : ℕ)
    (cfg₁ cfg₂ : SimConfig)
    (h1 : cfg₁.seed = cfg₂.seed) (h2 : cfg₁.num_agents = cfg₂.num_agents)
    (h3 : cfg₁.rounds = cfg₂.rounds)
    (h4 : cfg₁.p2p_encounters_per_round = cfg₂.p2p_encounters_per_round)
    (h5 : cfg₁.base_good = cfg₂.base_good)
    (h6 : cfg₁.initial_endowment_scale = cfg₂.initial_endowment_scale)
    (h7 : cfg₁.alpha_low = cfg₂.alpha_low)
    (h8 : cfg₁.alpha_high = cfg₂.alpha_high)
    (h9 : cfg₁.trade_step_cap_frac = cfg₂.trade_step_cap_frac)
    (h10 : cfg₁.min_qty = cfg₂.min_qty)
    (h11 : cfg₁.oracle_bisect_iters = cfg₂.oracle_bisect_iters)
    (h12 : cfg₁.pairing_mode = cfg₂.pairing_mode)
    (h13 : cfg₁.candidate_goods_k = cfg₂.candidate_goods_k)
    (h14 : cfg₁.base_goods = cfg₂.base_goods)
    (h15 : cfg₁.base_goods_quantity = cfg₂.base_goods_quantity)
    (h16 : cfg₁.reaction_rules = cfg₂.reaction_rules) :
    sim_events R fuel cfg₁ = sim_events R fuel cfg₂ ∧
      ∀ k : ℕ,
        ((sim_events R fuel cfg₁).getD k default).round =
          ((sim_events R fuel cfg₂).getD k default).round ∧
        ((sim_events R fuel cfg₁).getD k default).i =
          ((sim_events R fuel cfg₂).getD k default).i ∧
        ((sim_events R fuel cfg₁).getD k default).j =
          ((sim_events R fuel cfg₂).getD k default).j ∧
        ((sim_events R fuel cfg₁).getD k default).good_a =
          ((sim_events R fuel cfg₂).getD k default).good_a ∧
        ((sim_events R fuel cfg₁).getD k default).good_b =
          ((sim_events R fuel cfg₂).getD k default).good_b ∧
        ((sim_events R fuel cfg₁).getD k default).q_ab =
          ((sim_events R fuel cfg₂).getD k default).q_ab ∧
        ((sim_events R fuel cfg₁).getD k default).delta_a_i =
          ((sim_events R fuel cfg₂).getD k default).delta_a_i ∧
        ((sim_events R fuel cfg₁).getD k default).delta_b_i =
          ((sim_events R fuel cfg₂).getD k default).delta_b_i ∧
        ((sim_events R fuel cfg₁).getD k default).delta_u_i =
          ((sim_events R fuel cfg₂).getD k default).delta_u_i ∧
        ((sim_events R fuel cfg₁).getD k default).delta_u_j =
          ((sim_events R fuel cfg₂).getD k default).delta_u_j := by
  have hcfg : cfg₁ = cfg₂ := by
    cases cfg₁
    cases cfg₂
    simp_all
  subst hcfg
  exact ⟨rfl, fun k =>
    ⟨rfl, rfl, rfl, rfl, rfl, rfl, rfl, rfl, rfl, rfl⟩⟩

/-- C2 witness at a concrete configuration and generator. -/
theorem C2_determinism_witness :
    sim_events Rex 1 cfgGood = sim_events Rex 1 cfgGood :=
  (C2_determinism Rex 1 cfgGood cfgGood rfl rfl rfl rfl rfl rfl rfl rfl rfl
    rfl rfl rfl rfl rfl rfl rfl).1

end Rdx

namespace Rdx

/-- Writing two agents back into the population at indices `i` and `j`
preserves every agent's preference vectors, provided the written agents carry
the original preference vectors of those indices. -/
lemma set_set_prefs (agents : List Agent) (i j k : ℕ) (ai' aj' : Agent)
    (hai : ai'.beta = (agents.getD i default).beta)
    (haj : aj'.beta = (agents.getD j default).beta)
    (hai2 : ai'.alpha_to_base = (agents.getD i default).alpha_to_base)
    (haj2 : aj'.alpha_to_base = (agents.getD j default).alpha_to_base) :
    (((agents.set i ai').set j aj').getD k default).beta =
        (agents.getD k default).beta ∧
      (((agents.set i ai').set j aj').getD k default).alpha_to_base =
        (agents.getD k default).alpha_to_base := by
  refine ⟨?_, ?_⟩
  · rw [getD_set]
    split_ifs with hj
    · obtain ⟨hjk, _⟩ := hj
      subst hjk
      exact haj
    · rw [getD_set]
      split_ifs with hi
      · obtain ⟨hik, _⟩ := hi
        subst hik
        exact hai
      · rfl
  · rw [getD_set]
    split_ifs with hj
    · obtain ⟨hjk, _⟩ := hj
      subst hjk
      exact haj2
    · rw [getD_set]
      split_ifs with hi
      · obtain ⟨hik, _⟩ := hi
        subst hik
        exact hai2
      · rfl

/-- One encounter never changes any agent's preference vectors: the only
mutation is `apply_trade`, which rebuilds agents with new holdings but the
same `beta` and `alpha_to_base`. -/
lemma encounter_prefs (cfg : SimConfig) (agents : List Agent) (i j t k : ℕ) :
    ((encounter cfg agents i j t).1.getD k default).beta =
        (agents.getD k default).beta ∧
      ((encounter cfg agents i j t).1.getD k default).alpha_to_base =
        (agents.getD k default).alpha_to_base := by
  simp only [encounter]
  split
  · exact ⟨rfl, rfl⟩
  · exact set_set_prefs agents i j k _ _ rfl rfl rfl rfl

/-- The encounter loop preserves every agent's preference vectors. -/
lemma encounters_loop_prefs {σ : Type} (R : Rng σ) (cfg : SimConfig)
    (fuel t : ℕ) :
    ∀ (m : ℕ) (st res : List Agent × List TradeEvent × σ),
      encounters_loop R cfg fuel t m st = some res → ∀ k,
        (res.1.getD k default).beta = (st.1.getD k default).beta ∧
          (res.1.getD k default).alpha_to_base =
            (st.1.getD k default).alpha_to_base := by
  intro m
  induction m with
  | zero =>
      intro st res h k
      simp only [encounters_loop] at h
      cases h
      exact ⟨rfl, rfl⟩
  | succ m ih =>
      intro st res h k
      obtain ⟨agents, events, s⟩ := st
      simp only [encounters_loop] at h
      split at h
      · simp at h
      · obtain ⟨h1, h2⟩ := ih _ _ h k
        obtain ⟨e1, e2⟩ := encounter_prefs cfg agents _ _ t k
        exact ⟨h1.trans e1, h2.trans e2⟩

/-- The round loop preserves every agent's preference vectors. -/
lemma rounds_loop_prefs {σ : Type} (R : Rng σ) (cfg : SimConfig) (fuel : ℕ) :
    ∀ (r t : ℕ) (st res : List Agent × List TradeEvent × σ),
      rounds_loop R cfg fuel r t st = some res → ∀ k,
        (res.1.getD k default).beta = (st.1.getD k default).beta ∧
          (res.1.getD k default).alpha_to_base =
            (st.1.getD k default).alpha_to_base := by
  intro r
  induction r with
  | zero =>
      intro t st res h k
      simp only [rounds_loop] at h
      cases h
      exact ⟨rfl, rfl⟩
  | succ r ih =>
      intro t st res h k
      simp only [rounds_loop] at h
      rcases henc : encounters_loop R cfg fuel t cfg.p2p_encounters_per_round
        st with _ | st'
      · rw [henc] at h
        simp at h
      · rw [henc] at h
        obtain ⟨h1, h2⟩ := ih _ _ _ h k
        obtain ⟨e1, e2⟩ := encounters_loop_prefs R cfg fuel t _ _ _ henc k
        exact ⟨h1.trans e1, h2.trans e2⟩

end Rdx

namespace Rdx

/-- C9: (1) `run` never changes any agent's `beta` or `alpha_to_base`
(preferences are immutable after initialization); (2) an encounter leaves
every agent other than the two drawn indices untouched; (3) `apply_trade`
leaves both agents' holdings unchanged at every good other than the two
traded ones. -/
theorem C9_frame {σ : Type} (R : Rng σ) (fuel : ℕ) (cfg : SimConfig)
    (st : SimState) :
    (∀ s', run R fuel cfg st = some s' → ∀ k,
        (s'.agents.getD k default).beta = (st.agents.getD k default).beta ∧
          (s'.agents.getD k default).alpha_to_base =
            (st.agents.getD k default).alpha_to_base) ∧
      (∀ (agents : List Agent) (i j t m : ℕ), m ≠ i → m ≠ j →
        (encounter cfg agents i j t).1.getD m default =
          agents.getD m default) ∧
      (∀ (i j : Agent) (cand : TradeCandidate) (mq : ℝ) (g : ℕ),
        g ≠ cand.good_a → g ≠ cand.good_b →
        (apply_trade i j cand mq).1.e.getD g 0 = i.e.getD g 0 ∧
          (apply_trade i j cand mq).2.e.getD g 0 = j.e.getD g 0) := by
  refine ⟨?_, ?_, ?_⟩
  · intro s' h k
    unfold run at h
    rcases hr : rounds_loop R cfg fuel cfg.rounds 0
        (st.agents, st.events,
          R.seedFrom (Nat.xor cfg.seed 0xA5A5A5A5A5A5A5A5)) with _ | res
    · rw [hr] at h
      simp at h
    · rw [hr] at h
      cases h
      exact rounds_loop_prefs R cfg fuel cfg.rounds 0 _ _ hr k
  · intro agents i j t m hmi hmj
    simp only [encounter]
    split
    · rfl
    · rw [getD_set_ne _ _ _ _ _ (Ne.symm hmj), getD_set_ne _ _ _ _ _
        (Ne.symm hmi)]
  · intro i j cand mq g hga hgb
    unfold apply_trade
    constructor
    · rw [getD_set_ne _ _ _ _ _ (Ne.symm hgb), getD_set_ne _ _ _ _ _
        (Ne.symm hga)]
    · rw [getD_set_ne _ _ _ _ _ (Ne.symm hgb), getD_set_ne _ _ _ _ _
        (Ne.symm hga)]

/-- C9 witness: a concrete `apply_trade` call leaves good 2 of both agents
unchanged. -/
theorem C9_frame_witness :
    (apply_trade ⟨[1, 2, 3], [1, 0, 0], [0, 0, 0]⟩
        ⟨[3, 2, 1], [0, 0, 1], [0, 0, 0]⟩ ⟨0, 1, 1, 1, -1, 1, 1⟩ 1).1.e.getD
        2 0 = ([1, 2, 3] : List ℝ).getD 2 0 ∧
      (apply_trade ⟨[1, 2, 3], [1, 0, 0], [0, 0, 0]⟩
        ⟨[3, 2, 1], [0, 0, 1], [0, 0, 0]⟩ ⟨0, 1, 1, 1, -1, 1, 1⟩ 1).2.e.getD
        2 0 = ([3, 2, 1] : List ℝ).getD 2 0 :=
  (C9_frame Rex 1 cfgGood ⟨[], []⟩).2.2 ⟨[1, 2, 3], [1, 0, 0], [0, 0, 0]⟩
    ⟨[3, 2, 1], [0, 0, 1], [0, 0, 0]⟩ ⟨0, 1, 1, 1, -1, 1, 1⟩ 1 2 (by decide)
    (by decide)

end Rdx

namespace Rdx

/-- With a single agent, every draw from `gen_range(0..1)` is `0`, so the
resampling loop never exits, whatever its fuel. -/
lemma draw_distinct_one_none {σ : Type} (R : Rng σ)
    (h : ∀ s, (R.genRangeNat 1 s).1 < 1) :
    ∀ (fuel : ℕ) (s : σ), draw_distinct R 1 0 fuel s = none := by
  intro fuel
  induction fuel with
  | zero => intro s; rfl
  | succ fuel ih =>
      intro s
      have h0 : (R.genRangeNat 1 s).1 = 0 := Nat.lt_one_iff.mp (h s)
      simp only [draw_distinct, if_pos h0]
      exact ih _

/-- Shifting the iterated generator state by one draw. -/
lemma rng_iter_shift {σ : Type} (R : Rng σ) (n : ℕ) (s : σ) :
    ∀ t, rng_iter R n ((R.genRangeNat n s).2) t = rng_iter R n s (t + 1) := by
  intro t
  induction t with
  | zero => rfl
  | succ t ih => simp only [rng_iter, ih]

/-- If some draw within the fuel budget differs from `i`, the resampling loop
exits with a value distinct from `i`. -/
lemma draw_distinct_some {σ : Type} (R : Rng σ) (n i : ℕ) :
    ∀ (fuel : ℕ) (s : σ),
      (∃ t, t < fuel ∧ (R.genRangeNat n (rng_iter R n s t)).1 ≠ i) →
      ∃ j s', draw_distinct R n i fuel s = some (j, s') ∧ j ≠ i := by
  intro fuel
  induction fuel with
  | zero =>
      intro s h
      obtain ⟨t, ht, _⟩ := h
      omega
  | succ fuel ih =>
      intro s h
      by_cases h0 : (R.genRangeNat n s).1 = i
      · obtain ⟨t, ht, hne⟩ := h
        have ht0 : t ≠ 0 := by
          intro h'
          subst h'
          exact hne h0
        obtain ⟨t', rfl⟩ : ∃ t', t = t' + 1 := ⟨t - 1, by omega⟩
        have hrec : ∃ t, t < fuel ∧
            (R.genRangeNat n (rng_iter R n ((R.genRangeNat n s).2) t)).1 ≠
              i := by
          refine ⟨t', by omega, ?_⟩
          rw [rng_iter_shift]
          exact hne
        obtain ⟨j, s', hds, hji⟩ := ih _ hrec
        refine ⟨j, s', ?_, hji⟩
        simp only [draw_distinct, if_pos h0]
        exact hds
      · exact ⟨(R.genRangeNat n s).1, (R.genRangeNat n s).2,
          by simp only [draw_distinct, if_neg h0], h0⟩

/-- An encounter never changes the number of agents. -/
lemma encounter_length (cfg : SimConfig) (agents : List Agent) (i j t : ℕ) :
    (encounter cfg agents i j t).1.length = agents.length := by
  simp only [encounter]
  split
  · rfl
  · simp [List.length_set]

/-- With at least one alternative index always drawn within the fuel budget,
the encounter loop finishes and preserves the agent count. -/
lemma encounters_loop_some {σ : Type} (R : Rng σ) (cfg : SimConfig)
    (fuel t n0 : ℕ)
    (hstream : ∀ (s : σ) (i : ℕ), ∃ tt, tt < fuel ∧
      (R.genRangeNat n0 (rng_iter R n0 s tt)).1 ≠ i) :
    ∀ (m : ℕ) (st : List Agent × List TradeEvent × σ), st.1.length = n0 →
      ∃ res, encounters_loop R cfg fuel t m st = some res ∧
        res.1.length = n0 := by
  intro m
  induction m with
  | zero => intro st hlen; exact ⟨st, rfl, hlen⟩
  | succ m ih =>
      intro st hlen
      obtain ⟨agents, events, s⟩ := st
      simp only at hlen
      obtain ⟨j, s2, hds, hji⟩ := draw_distinct_some R n0
        ((R.genRangeNat n0 s).1) fuel ((R.genRangeNat n0 s).2)
        (hstream _ _)
      simp only [encounters_loop, hlen, hds]
      apply ih
      simp only [encounter_length]
      exact hlen

/-- With at least one alternative index always drawn within the fuel budget,
the round loop finishes. -/
lemma rounds_loop_some {σ : Type} (R : Rng σ) (cfg : SimConfig)
    (fuel n0 : ℕ)
    (hstream : ∀ (s : σ) (i : ℕ), ∃ tt, tt < fuel ∧
      (R.genRangeNat n0 (rng_iter R n0 s tt)).1 ≠ i) :
    ∀ (r t : ℕ) (st : List Agent × List TradeEvent × σ), st.1.length = n0 →
      ∃ res, rounds_loop R cfg fuel r t st = some res := by
  intro r
  induction r with
  | zero => intro t st hlen; exact ⟨st, rfl⟩
  | succ r ih =>
      intro t st hlen
      obtain ⟨st', hst', hlen'⟩ := encounters_loop_some R cfg fuel t n0
        hstream cfg.p2p_encounters_per_round st hlen
      simp only [rounds_loop, hst']
      exact ih _ _ hlen'

end Rdx

namespace Rdx

/-- C10: with `num_agents = 1` the `while j == i` resampling loop can never
exit — every draw from `gen_range(0..1)` equals the already-drawn `i = 0` —
so `run` does not terminate as soon as it must perform one encounter (the
fuel-indexed embedding returns `none` for *every* fuel).  With
`num_agents ≥ 2` an alternative index always exists, and whenever the
generator produces some non-colliding draw within the fuel budget (true of
any non-degenerate pseudorandom stream), every resampling loop exits and
`run` returns a result, its total work bounded by the loop structure. -/
theorem C10_run_termination :
    (∀ (σ : Type) (R : Rng σ), (∀ s, (R.genRangeNat 1 s).1 < 1) →
      ∀ (fuel : ℕ) (s : σ), draw_distinct R 1 0 fuel s = none) ∧
    (∀ (σ : Type) (R : Rng σ), (∀ s, (R.genRangeNat 1 s).1 < 1) →
      ∀ (fuel : ℕ) (cfg : SimConfig) (st : SimState),
        st.agents.length = 1 → 1 ≤ cfg.rounds →
        1 ≤ cfg.p2p_encounters_per_round → run R fuel cfg st = none) ∧
    (∀ n i : ℕ, 2 ≤ n → i < n → ∃ v, v < n ∧ v ≠ i) ∧
    (∀ (σ : Type) (R : Rng σ) (fuel : ℕ) (cfg : SimConfig) (st : SimState),
      2 ≤ st.agents.length →
      (∀ (s : σ) (i : ℕ), ∃ tt, tt < fuel ∧
        (R.genRangeNat st.agents.length
          (rng_iter R st.agents.length s tt)).1 ≠ i) →
      ∃ s', run R fuel cfg st = some s') := by
  refine ⟨?_, ?_, ?_, ?_⟩
  · intro σ R h fuel s
    exact draw_distinct_one_none R h fuel s
  · intro σ R h fuel cfg st hlen hr he
    obtain ⟨r, hrr⟩ : ∃ r, cfg.rounds = r + 1 := ⟨cfg.rounds - 1, by omega⟩
    obtain ⟨m, hmm⟩ : ∃ m, cfg.p2p_encounters_per_round = m + 1 :=
      ⟨cfg.p2p_encounters_per_round - 1, by omega⟩
    unfold run
    rw [hrr]
    simp only [rounds_loop, hmm]
    simp only [encounters_loop, hlen]
    have h0 : (R.genRangeNat 1
        (R.seedFrom (Nat.xor cfg.seed 0xA5A5A5A5A5A5A5A5))).1 = 0 :=
      Nat.lt_one_iff.mp (h _)
    rw [h0, draw_distinct_one_none R h fuel _]
    rfl
  · intro n i h2 hi
    by_cases hi0 : i = 0
    · exact ⟨1, by omega, by omega⟩
    · exact ⟨0, by omega, fun h => hi0 h.symm⟩
  · intro σ R fuel cfg st h2 hstream
    obtain ⟨res, hres⟩ := rounds_loop_some R cfg fuel st.agents.length
      hstream cfg.rounds 0
      (st.agents, st.events, R.seedFrom (Nat.xor cfg.seed 0xA5A5A5A5A5A5A5A5))
      rfl
    unfold run
    rw [hres]
    exact ⟨_, rfl⟩

/-- C10 witness: with the constant generator (always drawing index 0) and a
single agent, the resampling loop returns no result at fuel 5. -/
theorem C10_run_termination_witness :
    draw_distinct Rex 1 0 5 () = none :=
  C10_run_termination.1 Unit Rex (fun _ => Nat.zero_lt_one) 5 ()

end Rdx

